import Mathlib

/-!
Verification of the permission algebra (`prusti-viper/src/encoder/foldunfold/perm.rs`)
and the procedure encoder (`src/encoder/procedure_encoder.rs`) of the Prusti
Rust-to-Viper translator, against its natural-language specification.

The Rust code is shallowly embedded: `HashMap<vir::Expr, PermAmount>` becomes an
association list with HashMap-faithful operations (insert replaces the key,
remove deletes it), `HashSet<Perm>` becomes a list, and every panicking path
(`unreachable!`, `unwrap`, `unimplemented!`, out-of-bounds indexing) becomes
`Option.none`.
-/

namespace Prusti

/-- A heap place, the fragment of `vir::Expr` relevant to the permission
algebra: a local variable, or a named-field projection of a base place. -/
inductive Place where
  | loc : String → Place
  | field : Place → String → Place
deriving DecidableEq, Repr

/-- `vir::PermAmount`: the permission-amount lattice `unset / read / write`. -/
inductive PermAmount where
  | unset
  | read
  | write
deriving DecidableEq, Repr

/-- `PermAmount::is_valid_for_specs`: `unset` is invalid, `read`/`write` are valid. -/
def PermAmount.is_valid_for_specs : PermAmount → Bool
  | .unset => false
  | .read => true
  | .write => true

/-- Modelled from the spec: `vir::Expr::has_prefix` is implemented outside the
given sources (only its callers are in `perm.rs`); the spec states that `q` is
a (proper or improper) prefix of `p` when `p` is reached from `q` by zero or
more projections, so `has_prefix p q` holds iff `p = q` or the base of `p`
again has `q` as a prefix. -/
def Place.has_prefix : Place → Place → Bool
  | p@(.loc _), q => p == q
  | p@(.field base _), q => p == q || Place.has_prefix base q

/-- Modelled from the spec: `vir::Expr::has_proper_prefix`, the strict version
of [Place.has_prefix]. -/
def Place.has_proper_prefix : Place → Place → Bool
  | .loc _, _ => false
  | .field base _, q => Place.has_prefix base q

/-- `Perm` from `perm.rs`: an access or predicate permission to a place,
carrying a permission amount. -/
inductive Perm where
  | Acc : Place → PermAmount → Perm
  | Pred : Place → PermAmount → Perm
deriving DecidableEq, Repr

namespace Perm

/-- `Perm::is_acc`. -/
def is_acc : Perm → Bool
  | .Acc _ _ => true
  | .Pred _ _ => false

/-- `Perm::is_pred`. -/
def is_pred : Perm → Bool
  | .Acc _ _ => false
  | .Pred _ _ => true

/-- `Perm::get_place`. -/
def get_place : Perm → Place
  | .Acc place _ => place
  | .Pred place _ => place

/-- `Perm::get_perm_amount`. -/
def get_perm_amount : Perm → PermAmount
  | .Acc _ p => p
  | .Pred _ p => p

end Perm

/-- The embedding of `HashMap<vir::Expr, PermAmount>`: an association list.
All operations below keep at most one entry per key, matching the HashMap. -/
abbrev PermMap := List (Place × PermAmount)

namespace PermMap

/-- `HashMap::get`. -/
def get (m : PermMap) (p : Place) : Option PermAmount :=
  (m.find? (fun e => e.1 == p)).map (·.2)

/-- `HashMap::remove` (dropping the returned old value). -/
def removeKey (m : PermMap) (p : Place) : PermMap :=
  m.filter (fun e => e.1 != p)

/-- `HashMap::insert` (dropping the returned old value): the new binding
replaces any existing binding of the same key. -/
def insert (m : PermMap) (p : Place) (a : PermAmount) : PermMap :=
  m.removeKey p ++ [(p, a)]

end PermMap

/-- `PermSet` from `perm.rs`: access permissions and predicate permissions are
tracked in two independent place-to-amount maps. -/
structure PermSet where
  acc_perms : PermMap
  pred_perms : PermMap
deriving DecidableEq, Repr

namespace PermSet

/-- `PermSet::empty`. -/
def empty : PermSet := ⟨[], []⟩

/-- `PermSet::add` (an `inhale`): inserts the place with the given amount into
the namespace picked by the permission's tag; an existing entry for the same
place is overwritten. -/
def add (s : PermSet) (perm : Perm) : PermSet :=
  match perm with
  | .Acc place amount => { s with acc_perms := s.acc_perms.insert place amount }
  | .Pred place amount => { s with pred_perms := s.pred_perms.insert place amount }

/-- `PermSet::remove` (an `exhale`): deletes the place's entry from the
namespace picked by the permission's tag; the amount is ignored. -/
def remove (s : PermSet) (perm : Perm) : PermSet :=
  match perm with
  | .Acc place _ => { s with acc_perms := s.acc_perms.removeKey place }
  | .Pred place _ => { s with pred_perms := s.pred_perms.removeKey place }

/-- `PermSet::contains` (an `assert`): the amount is ignored. -/
def contains (s : PermSet) (perm : Perm) : Bool :=
  match perm with
  | .Acc place _ => (s.acc_perms.get place).isSome
  | .Pred place _ => (s.pred_perms.get place).isSome

end PermSet

/-- One iteration of the `right.drain()` loop of `place_perm_difference`:
look the drained place up in `left`; an absent place is silently ignored; a
present place is removed when the amount pair is `read−read`, `read−write`, or
`write−write`; every other pair hits `unreachable!`, modelled as `none`. -/
def place_perm_difference_step (left : PermMap) (entry : Place × PermAmount) :
    Option PermMap :=
  match left.get entry.1 with
  | some left_amount =>
    match left_amount, entry.2 with
    | .read, .read => some (left.removeKey entry.1)
    | .read, .write => some (left.removeKey entry.1)
    | .write, .write => some (left.removeKey entry.1)
    | _, _ => none
  | none => some left

/-- `place_perm_difference` from `perm.rs`: drain `right`, updating `left`
entry by entry; `none` models the `unreachable!` panic. -/
def place_perm_difference (left right : PermMap) : Option PermMap :=
  right.foldlM place_perm_difference_step left

/-- The `collect::<HashMap<_,_>>()` of an iterator of permissions into a
place-to-amount map: later entries overwrite earlier ones, as HashMap
insertion does. -/
def toPermMap (perms : List Perm) : PermMap :=
  perms.foldl (fun m p => m.insert p.get_place p.get_perm_amount) []

/-- `perm_difference` from `perm.rs`: split both sides into access and
predicate permissions, take the place-level difference in each namespace, and
re-tag the surviving entries. `none` models the `unreachable!` panic inside
`place_perm_difference`. -/
def perm_difference (left right : List Perm) : Option (List Perm) := do
  let acc_res ← place_perm_difference
    (toPermMap (left.filter Perm.is_acc)) (toPermMap (right.filter Perm.is_acc))
  let pred_res ← place_perm_difference
    (toPermMap (left.filter Perm.is_pred)) (toPermMap (right.filter Perm.is_pred))
  return (acc_res.map fun e => Perm.Acc e.1 e.2) ++
    (pred_res.map fun e => Perm.Pred e.1 e.2)

/-- The subtraction-compatibility table of `place_perm_difference`: the three
amount pairs its match removes without hitting `unreachable!`. -/
def subtractable : PermAmount → PermAmount → Bool
  | .read, .read => true
  | .read, .write => true
  | .write, .write => true
  | _, _ => false

/-- The keys of a permission map. -/
def PermMap.keys (m : PermMap) : List Place := m.map Prod.fst

/-! ## The procedure encoder (`src/encoder/procedure_encoder.rs`)

MIR-side data (`rustc::mir`, `rustc::ty`) is modelled by the variants the
encoder actually inspects; Viper-side data (the `viper` crate's `Expr`,
`Stmt`, `Successor`) by opaque AST constructors mirroring the `AstFactory`
calls. The per-procedure fresh-variable counter of `CfgMethod` is threaded
explicitly as a `Nat`. Every panicking path (`unwrap`, `unimplemented!`,
`panic!`, out-of-bounds indexing) is `Option.none`. -/

/-- The `rustc::ty` type variants the encoder matches on. -/
inductive RTy where
  | bool
  | int
  | uint
  | rawPtr (pointee : RTy)
  | ref (pointee : RTy)
  | tuple (elems : List RTy)
  | adt (variants : List (List (String × RTy)))

/-- The test `switch_ty.sty == ty::TypeVariants::TyBool`. -/
def RTy.is_bool : RTy → Bool
  | .bool => true
  | _ => false

/-- The type variants of the `panic!("Type {:?} has no fields", base_ty)` arm
of `encode_projection`: booleans, integers, raw pointers and references. -/
def RTy.has_no_fields : RTy → Bool
  | .bool => true
  | .int => true
  | .uint => true
  | .rawPtr _ => true
  | .ref _ => true
  | _ => false

/-- A literal constant (`ConstVal`), the two shapes the encoder evaluates. -/
inductive MirConst where
  | bool (b : Bool)
  | int (i : Int)

/-- A `mir::ProjectionElem`: field access (by field index), dereference, or
enum-variant downcast. -/
inductive MirProjElem where
  | fieldP (idx : Nat)
  | deref
  | downcast (variant : Nat)

/-- A `mir::Place`: a local variable or a projection of a base place. -/
inductive MirPlace where
  | loc (idx : Nat)
  | proj (base : MirPlace) (elem : MirProjElem)

/-- A `mir::Operand`. A constant carries its value and its type. -/
inductive MirOperand where
  | copy (p : MirPlace)
  | move (p : MirPlace)
  | const (c : MirConst) (ty : RTy)

/-- Whether the operand is a `Move` operand. -/
def MirOperand.is_move : MirOperand → Bool
  | .move _ => true
  | _ => false

/-- A `mir::BinOp`; `gt`, `add` and `sub` are the operators
`encode_bin_op_value` supports, the others hit `unimplemented!`. -/
inductive MirBinOp where
  | gt
  | add
  | sub
  | mul
  | eq

/-- A `mir::AggregateKind`: tuple, or ADT (carrying the `adt_def`'s variant
list and the built variant's index). -/
inductive MirAggregateKind where
  | tupleK
  | adtK (variants : List (List (String × RTy))) (variant_index : Nat)

/-- A `mir::Rvalue`, the shapes `encode_statement` matches on. -/
inductive MirRvalue where
  | use (operand : MirOperand)
  | binaryOp (op : MirBinOp) (left right : MirOperand)
  | checkedBinaryOp (op : MirBinOp) (left right : MirOperand)
  | unaryOp (operand : MirOperand)
  | nullaryOp
  | discriminant (src : MirPlace)
  | aggregate (kind : MirAggregateKind) (operands : List MirOperand)
  | refR (place : MirPlace)

/-- A `mir::StatementKind`. -/
inductive MirStatement where
  | storageLive
  | storageDead
  | endRegion
  | assign (lhs : MirPlace) (rhs : MirRvalue)

/-- A `mir::TerminatorKind`, the kinds `encode_terminator` matches on.
Unwind/cleanup targets are dropped, exactly as the source ignores them. -/
inductive MirTerminator where
  | ret
  | goto (target : Nat)
  | switchInt (discr : MirOperand) (switch_ty : RTy) (values : List Int)
      (targets : List Nat)
  | unreachable
  | abort
  | drop (target : Nat)
  | falseEdges (real_target : Nat)
  | falseUnwind (real_target : Nat)
  | dropAndReplace (location : MirPlace) (value : MirOperand) (target : Nat)
  | call (func_name : String) (args : List MirOperand)
      (destination : Option (MirPlace × Nat))
  | assert (cond : MirOperand) (expected : Bool) (target : Nat)
  | resume

/-- A Viper type (`ast.ref_type()`, `ast.bool_type()`, `ast.int_type()`). -/
inductive VTy where
  | refT
  | boolT
  | intT

/-- A Viper field handle: a by-name `Ref` field (`encode_ref_field`), the
value field of a primitive type (`encode_value_field`), or the discriminant
field (`encode_discriminant_field().1`). -/
inductive VField where
  | refF (name : String)
  | valueF (ty : RTy)
  | discrF

/-- A Viper expression, mirroring the `AstFactory` expression constructors the
encoder calls. -/
inductive VExpr where
  | localVar (name : String) (ty : VTy)
  | fieldAccess (base : VExpr) (field : VField)
  | notE (e : VExpr)
  | eqCmp (left right : VExpr)
  | gtCmp (left right : VExpr)
  | add (left right : VExpr)
  | sub (left right : VExpr)
  | trueLit
  | falseLit
  | nullLit
  | intLit (i : Int)

/-- A Viper statement, mirroring the `AstFactory` statement constructors the
encoder calls (`ast.assign` keeps its "is the target a local variable" flag). -/
inductive VStmt where
  | comment (text : String)
  | assign (lhs rhs : VExpr) (lhs_is_local : Bool)
  | localVarAssign (lhs rhs : VExpr)
  | fieldAssign (lhs rhs : VExpr)
  | newStmt (lhs : VExpr) (fields : List VField)
  | assertStmt (e : VExpr)
  | methodCall (name : String) (args : List VExpr) (targets : List VExpr)

/-- A `viper::Successor` attached to a CFG block. -/
inductive Successor where
  | goto (block : Nat)
  | gotoSwitch (targets : List (VExpr × Nat)) (default : Nat)
  | unreachable
  | ret

/-- The procedure context: the types of the MIR local variables
(`mir.local_decls`), indexed by local number. -/
structure MirCtx where
  localTypes : List RTy

/-- `CfgMethod::add_fresh_local_var`: the name generated for the `n`-th fresh
temporary. -/
def fresh_name (n : Nat) : String := "tmp_" ++ Nat.repr n

/-- `encode_local_var_name`: `format!("{:?}", local)`. -/
def encode_local_var_name (i : Nat) : String := "_" ++ Nat.repr i

/-- `encode_local`: the local as a `Ref`-typed Viper local variable. -/
def encode_local (i : Nat) : VExpr :=
  VExpr.localVar (encode_local_var_name i) VTy.refT

/-- The block-index map from source basic blocks to IVL blocks
(`HashMap<BasicBlockIndex, CfgBlockIndex>`). -/
abbrev CfgBlocks := List (Nat × Nat)

/-- `HashMap::get` on the block-index map. -/
def CfgBlocks.lookup (m : CfgBlocks) (k : Nat) : Option Nat :=
  (m.find? (fun e => e.1 == k)).map (·.2)

/-- Modelled from the spec: `Encoder::eval_const_val` is implemented outside
the given sources; per the spec it turns a literal into the corresponding IVL
literal expression. -/
def eval_const_val : MirConst → VExpr
  | .bool true => VExpr.trueLit
  | .bool false => VExpr.falseLit
  | .int i => VExpr.intLit i

/-- Modelled from the spec: `Encoder::eval_const_int` (used for non-boolean
switch guards) turns a constant integer into an IVL integer literal. -/
def eval_const_int (i : Int) : VExpr := VExpr.intLit i

/-- Modelled from the spec: `const_int_is_zero` from `encoder::utils` tests
whether a switch case value is the integer zero. -/
def const_int_is_zero (i : Int) : Bool := i == 0

/-- Modelled from the spec: `Encoder::encode_value_field` (`value_field_of` in
the spec's collaborator contract) returns the field handle of the scalar
payload of a primitive/reference type. -/
def encode_value_field (ty : RTy) : VField := VField.valueF ty

/-- `Encoder::encode_ref_field`: a `Ref`-typed field known by name. -/
def encode_ref_field (name : String) : VField := VField.refF name

/-- Modelled from the spec: `Encoder::encode_discriminant_field().1`, the
field handle of an enum's discriminant. -/
def encode_discriminant_field : VField := VField.discrF

/-- Modelled from the spec: `Encoder::encode_type_fields` (`fields_of` in the
spec's collaborator contract): the ordered heap field layout of a type —
value field for scalars, `val_ref` for references and raw pointers,
`tuple_i` slots for tuples, `struct_`-prefixed fields for single-variant
ADTs, and a discriminant plus `enum_<variant>_`-prefixed fields for
multi-variant ADTs; nested types accompany non-leaf fields. -/
def encode_type_fields : RTy → List (String × VField × Option RTy)
  | .bool => [("val_bool", VField.valueF RTy.bool, none)]
  | .int => [("val_int", VField.valueF RTy.int, none)]
  | .uint => [("val_uint", VField.valueF RTy.uint, none)]
  | .rawPtr _ => [("val_ref", VField.refF "val_ref", none)]
  | .ref _ => [("val_ref", VField.refF "val_ref", none)]
  | .tuple elems =>
      elems.enum.map fun e =>
        ("tuple_" ++ Nat.repr e.1, VField.refF ("tuple_" ++ Nat.repr e.1),
          some e.2)
  | .adt variants =>
      if variants.length == 1 then
        (variants.headD []).map fun f =>
          ("struct_" ++ f.1, VField.refF ("struct_" ++ f.1), some f.2)
      else
        ("discriminant", VField.discrF, none) ::
          (variants.enum.map fun v =>
            v.2.map fun f =>
              ("enum_" ++ Nat.repr v.1 ++ "_" ++ f.1,
                VField.refF ("enum_" ++ Nat.repr v.1 ++ "_" ++ f.1),
                some f.2)).flatten

/-- `get_rust_local_ty`: `self.mir.local_decls[local].ty`; an out-of-range
local is a rustc index panic. -/
def get_rust_local_ty (ctx : MirCtx) (i : Nat) : Option RTy :=
  ctx.localTypes.get? i

/-- The body of `encode_projection` past its opening `encode_place` call:
project the already-encoded base. Field projection on a type with no fields
is the `panic!("Type {:?} has no fields")` arm; the discriminant assertion of
the ADT arm holds in this model because modelled discriminants equal variant
indices (the spec's layout contract). -/
def encode_projection_result (base_result : VExpr × RTy × Option Nat)
    (elem : MirProjElem) : Option (VExpr × RTy × Option Nat) := do
  let (encoded_base, base_ty, opt_variant_index) := base_result
  match elem with
  | .fieldP idx =>
      match base_ty with
      | .bool => none
      | .int => none
      | .uint => none
      | .rawPtr _ => none
      | .ref _ => none
      | .tuple elems => do
          let field_ty ← elems.get? idx
          let field_name := "tuple_" ++ Nat.repr idx
          return (VExpr.fieldAccess encoded_base (encode_ref_field field_name),
            field_ty, none)
      | .adt variants => do
          let variant_index := opt_variant_index.getD 0
          let fields ← variants.get? variant_index
          let f ← fields.get? idx
          let field_name :=
            if variants.length == 1 then "struct_" ++ f.1
            else "enum_" ++ Nat.repr variant_index ++ "_" ++ f.1
          return (VExpr.fieldAccess encoded_base (encode_ref_field field_name),
            f.2, none)
  | .deref =>
      match base_ty with
      | .rawPtr ty =>
          return (VExpr.fieldAccess encoded_base (encode_ref_field "val_ref"),
            ty, none)
      | .ref ty =>
          return (VExpr.fieldAccess encoded_base (encode_ref_field "val_ref"),
            ty, none)
      | _ => none
  | .downcast variant => return (encoded_base, base_ty, some variant)

/-- `encode_place`: a local is encoded as its `Ref`-typed variable together
with its declared type; a projection encodes the base and projects it. -/
def encode_place (ctx : MirCtx) : MirPlace → Option (VExpr × RTy × Option Nat)
  | .loc i => do
      let ty ← get_rust_local_ty ctx i
      return (encode_local i, ty, none)
  | .proj base elem => do
      let base_result ← encode_place ctx base
      encode_projection_result base_result elem

/-- `encode_projection`: encode the base place, then project it; returns the
projected expression, its type, and (after a downcast) the resolved variant
index. -/
def encode_projection (ctx : MirCtx) (base : MirPlace) (elem : MirProjElem) :
    Option (VExpr × RTy × Option Nat) := do
  let base_result ← encode_place ctx base
  encode_projection_result base_result elem

/-- `is_place_encoded_as_local_var`. -/
def is_place_encoded_as_local_var : MirPlace → Bool
  | .loc _ => true
  | .proj _ _ => false

/-- `eval_place`: the value-field access of the encoded place. -/
def eval_place (ctx : MirCtx) (place : MirPlace) : Option VExpr := do
  let (encoded_place, place_ty, _) ← encode_place ctx place
  return VExpr.fieldAccess encoded_place (encode_value_field place_ty)

/-- `eval_operand`: the operand's value expression plus post side-effect
statements (the move-invalidation null assignment for `Move` operands). -/
def eval_operand (ctx : MirCtx) : MirOperand → Option (VExpr × List VStmt)
  | .const c _ => return (eval_const_val c, [])
  | .copy place => do
      let e ← eval_place ctx place
      return (e, [])
  | .move place => do
      let (encoded_place, _, _) ← encode_place ctx place
      let null_stmt := VStmt.assign encoded_place VExpr.nullLit
        (is_place_encoded_as_local_var place)
      let e ← eval_place ctx place
      return (e, [null_stmt])

/-- `encode_allocation`: emit a `new` statement over the type's field layout,
through a fresh temporary when the destination is not a local variable. -/
def encode_allocation (dst : VExpr) (ty : RTy) (dst_is_local_var : Bool)
    (n : Nat) : List VStmt × Nat :=
  let fields := (encode_type_fields ty).map fun x => encode_ref_field x.1
  if dst_is_local_var then
    ([VStmt.newStmt dst fields], n)
  else
    let tmp_var := VExpr.localVar (fresh_name n) VTy.refT
    ([VStmt.newStmt tmp_var fields, VStmt.fieldAssign dst tmp_var], n + 1)

mutual

/-- `encode_copy`: allocate the destination, then copy field by field —
scalar value fields and `val_ref` fields by direct aliasing, non-leaf fields
recursively. The iteration over `encode_type_fields` is unrolled per type
shape so that the recursion is structural. -/
def encode_copy (src dst : VExpr) (self_ty : RTy) (dst_is_local_var : Bool)
    (n : Nat) : List VStmt × Nat :=
  let (alloc_stmts, n1) := encode_allocation dst self_ty dst_is_local_var n
  match self_ty with
  | .bool =>
      (alloc_stmts ++
        (encode_type_fields RTy.bool).map fun x =>
          VStmt.fieldAssign (VExpr.fieldAccess dst x.2.1)
            (VExpr.fieldAccess src x.2.1), n1)
  | .int =>
      (alloc_stmts ++
        (encode_type_fields RTy.int).map fun x =>
          VStmt.fieldAssign (VExpr.fieldAccess dst x.2.1)
            (VExpr.fieldAccess src x.2.1), n1)
  | .uint =>
      (alloc_stmts ++
        (encode_type_fields RTy.uint).map fun x =>
          VStmt.fieldAssign (VExpr.fieldAccess dst x.2.1)
            (VExpr.fieldAccess src x.2.1), n1)
  | .rawPtr _ =>
      (alloc_stmts ++
        [VStmt.fieldAssign (VExpr.fieldAccess dst (encode_ref_field "val_ref"))
          (VExpr.fieldAccess src (encode_ref_field "val_ref"))], n1)
  | .ref _ =>
      (alloc_stmts ++
        [VStmt.fieldAssign (VExpr.fieldAccess dst (encode_ref_field "val_ref"))
          (VExpr.fieldAccess src (encode_ref_field "val_ref"))], n1)
  | .tuple elems =>
      let (stmts, n2) := encode_copy_tuple_fields src dst elems 0 n1
      (alloc_stmts ++ stmts, n2)
  | .adt [fields] =>
      let (stmts, n2) :=
        encode_copy_named_fields src dst "struct_" fields n1
      (alloc_stmts ++ stmts, n2)
  | .adt variants =>
      let discr_stmt := VStmt.fieldAssign (VExpr.fieldAccess dst VField.discrF)
        (VExpr.fieldAccess src VField.discrF)
      let (stmts, n2) := encode_copy_variants src dst variants 0 n1
      (alloc_stmts ++ discr_stmt :: stmts, n2)
termination_by sizeOf self_ty

/-- The recursive copy of a tuple's `tuple_i` fields. -/
def encode_copy_tuple_fields (src dst : VExpr) (elems : List RTy) (i : Nat)
    (n : Nat) : List VStmt × Nat :=
  match elems with
  | [] => ([], n)
  | ty :: rest =>
      let field := encode_ref_field ("tuple_" ++ Nat.repr i)
      let (inner, n1) := encode_copy (VExpr.fieldAccess src field)
        (VExpr.fieldAccess dst field) ty false n
      let (others, n2) := encode_copy_tuple_fields src dst rest (i + 1) n1
      (inner ++ others, n2)
termination_by sizeOf elems

/-- The recursive copy of one variant's named fields, with the given field
name prefix. -/
def encode_copy_named_fields (src dst : VExpr) (prefix_ : String)
    (fields : List (String × RTy)) (n : Nat) : List VStmt × Nat :=
  match fields with
  | [] => ([], n)
  | (fname, fty) :: rest =>
      let field := encode_ref_field (prefix_ ++ fname)
      let (inner, n1) := encode_copy (VExpr.fieldAccess src field)
        (VExpr.fieldAccess dst field) fty false n
      let (others, n2) := encode_copy_named_fields src dst prefix_ rest n1
      (inner ++ others, n2)
termination_by sizeOf fields

/-- The recursive copy of every variant's fields of a multi-variant ADT. -/
def encode_copy_variants (src dst : VExpr)
    (variants : List (List (String × RTy))) (v : Nat) (n : Nat) :
    List VStmt × Nat :=
  match variants with
  | [] => ([], n)
  | fields :: rest =>
      let (inner, n1) := encode_copy_named_fields src dst
        ("enum_" ++ Nat.repr v ++ "_") fields n
      let (others, n2) := encode_copy_variants src dst rest (v + 1) n1
      (inner ++ others, n2)
termination_by sizeOf variants

end

/-- `encode_operand`: the operand's expression plus "before" and "after"
statement lists (allocation/copy before, move-invalidation after). -/
def encode_operand (ctx : MirCtx) (operand : MirOperand) (n : Nat) :
    Option (VExpr × List VStmt × List VStmt × Nat) :=
  match operand with
  | .move place => do
      let (encoded_place, _, _) ← encode_place ctx place
      let stmt := VStmt.assign encoded_place VExpr.nullLit
        (is_place_encoded_as_local_var place)
      return (encoded_place, [], [stmt], n)
  | .copy place => do
      let fresh_var := VExpr.localVar (fresh_name n) VTy.refT
      let (src, ty, _) ← encode_place ctx place
      let (stmts, n1) := encode_copy src fresh_var ty true (n + 1)
      return (fresh_var, stmts, [], n1)
  | .const c ty => do
      let fresh_var := VExpr.localVar (fresh_name n) VTy.refT
      let (alloc_stmts, n1) := encode_allocation fresh_var ty true (n + 1)
      let const_val := eval_const_val c
      let field := encode_value_field ty
      return (fresh_var,
        alloc_stmts ++
          [VStmt.fieldAssign (VExpr.fieldAccess fresh_var field) const_val],
        [], n1)

/-- `encode_bin_op_value`: `Gt`, `Add` and `Sub` are supported, every other
operator hits `unimplemented!`. -/
def encode_bin_op_value (op : MirBinOp) (left right : VExpr) : Option VExpr :=
  match op with
  | .gt => some (VExpr.gtCmp left right)
  | .add => some (VExpr.add left right)
  | .sub => some (VExpr.sub left right)
  | _ => none

/-- `encode_bin_op_check`: the overflow check is not implemented — the
encoder returns the literal `true` for every operator and operands. -/
def encode_bin_op_check (_ : MirBinOp) (_ _ : VExpr) : VExpr :=
  VExpr.trueLit

/-- The per-field operand loop of the tuple arm of `encode_assign_aggregate`. -/
def encode_aggregate_tuple_ops (ctx : MirCtx) (dst_var : VExpr)
    (operands : List MirOperand) (field_num : Nat) (n : Nat) :
    Option (List VStmt × Nat) :=
  match operands with
  | [] => some ([], n)
  | operand :: rest => do
      let field_name := "tuple_" ++ Nat.repr field_num
      let encoded_field := encode_ref_field field_name
      let (encoded_operand, before_stmts, after_stmts, n1) ←
        encode_operand ctx operand n
      let (others, n2) ← encode_aggregate_tuple_ops ctx dst_var rest
        (field_num + 1) n1
      return (before_stmts ++
        [VStmt.fieldAssign (VExpr.fieldAccess dst_var encoded_field)
          encoded_operand] ++ after_stmts ++ others, n2)

/-- The per-field operand loop of the ADT arm of `encode_assign_aggregate`:
`operands[field_index]` out of range is a Rust index panic. -/
def encode_aggregate_adt_ops (ctx : MirCtx) (dst_var : VExpr)
    (operands : List MirOperand) (num_variants variant_index : Nat)
    (fields : List (String × RTy)) (field_index : Nat) (n : Nat) :
    Option (List VStmt × Nat) :=
  match fields with
  | [] => some ([], n)
  | f :: rest => do
      let operand ← operands.get? field_index
      let field_name :=
        if num_variants == 1 then "struct_" ++ f.1
        else "enum_" ++ Nat.repr variant_index ++ "_" ++ f.1
      let encoded_field := encode_ref_field field_name
      let (encoded_operand, before_stmts, after_stmts, n1) ←
        encode_operand ctx operand n
      let (others, n2) ← encode_aggregate_adt_ops ctx dst_var operands
        num_variants variant_index rest (field_index + 1) n1
      return (before_stmts ++
        [VStmt.fieldAssign (VExpr.fieldAccess dst_var encoded_field)
          encoded_operand] ++ after_stmts ++ others, n2)

/-- `encode_assign_aggregate`: allocate a fresh cell of the aggregate type,
write the discriminant first for multi-variant ADTs, then assign every
operand into its field. -/
def encode_assign_aggregate (ctx : MirCtx) (ty : RTy)
    (aggregate : MirAggregateKind) (operands : List MirOperand) (n : Nat) :
    Option (VExpr × List VStmt × Nat) := do
  let dst_var := VExpr.localVar (fresh_name n) VTy.refT
  let (alloc_stmts, n1) := encode_allocation dst_var ty true (n + 1)
  match aggregate with
  | .tupleK => do
      let (stmts, n2) ← encode_aggregate_tuple_ops ctx dst_var operands 0 n1
      return (dst_var, alloc_stmts ++ stmts, n2)
  | .adtK variants variant_index => do
      let num_variants := variants.length
      let discr_stmts :=
        if num_variants > 1 then
          [VStmt.fieldAssign (VExpr.fieldAccess dst_var encode_discriminant_field)
            (VExpr.intLit variant_index)]
        else []
      let variant_def ← variants.get? variant_index
      let (stmts, n2) ← encode_aggregate_adt_ops ctx dst_var operands
        num_variants variant_index variant_def 0 n1
      return (dst_var, alloc_stmts ++ discr_stmts ++ stmts, n2)

/-- `encode_statement`: storage markers are no-ops; an assignment dispatches
on the right-hand side exactly as the source's match does; unsupported
rvalues hit `unimplemented!`. -/
def encode_statement (ctx : MirCtx) (stmt : MirStatement) (n : Nat) :
    Option (List VStmt × Nat) :=
  match stmt with
  | .storageLive => some ([], n)
  | .storageDead => some ([], n)
  | .endRegion => some ([], n)
  | .assign lhs rhs => do
    let (encoded_lhs, ty, _) ← encode_place ctx lhs
    match rhs with
    | .use operand => do
        let (encoded_value, effects_before, effects_after, n1) ←
          encode_operand ctx operand n
        return (effects_before ++
          [VStmt.assign encoded_lhs encoded_value
            (is_place_encoded_as_local_var lhs)] ++ effects_after, n1)
    | .binaryOp op left right => do
        let (encoded_left, effects_after_left) ← eval_operand ctx left
        let (encoded_right, effects_after_right) ← eval_operand ctx right
        let field := encode_value_field ty
        let encoded_value ← encode_bin_op_value op encoded_left encoded_right
        return ([VStmt.fieldAssign (VExpr.fieldAccess encoded_lhs field)
            encoded_value] ++ effects_after_left ++ effects_after_right, n)
    | .checkedBinaryOp op left right => do
        let (encoded_left, effects_after_left) ← eval_operand ctx left
        let (encoded_right, effects_after_right) ← eval_operand ctx right
        let encoded_value ← encode_bin_op_value op encoded_left encoded_right
        let encoded_check := encode_bin_op_check op encoded_left encoded_right
        let elems ← match ty with
          | .tuple elems => some elems
          | _ => none
        let value_field := encode_ref_field "tuple_0"
        let elem0 ← elems.get? 0
        let value_field_value := encode_value_field elem0
        let check_field := encode_ref_field "tuple_1"
        let elem1 ← elems.get? 1
        let check_field_value := encode_value_field elem1
        return ([VStmt.fieldAssign
            (VExpr.fieldAccess (VExpr.fieldAccess encoded_lhs value_field)
              value_field_value) encoded_value,
          VStmt.fieldAssign
            (VExpr.fieldAccess (VExpr.fieldAccess encoded_lhs check_field)
              check_field_value) encoded_check] ++
          effects_after_left ++ effects_after_right, n)
    | .unaryOp _ => none
    | .nullaryOp => none
    | .discriminant src => do
        let discr_var := VExpr.localVar (fresh_name n) VTy.refT
        let (alloc_stmts, n1) := encode_allocation discr_var ty true (n + 1)
        let int_field := encode_value_field ty
        let discr_field := encode_discriminant_field
        let (encoded_src, _, _) ← encode_place ctx src
        return (alloc_stmts ++
          [VStmt.assign encoded_lhs discr_var
            (is_place_encoded_as_local_var lhs),
          VStmt.fieldAssign (VExpr.fieldAccess encoded_lhs int_field)
            (VExpr.fieldAccess encoded_src discr_field)], n1)
    | .aggregate kind operands => do
        let (encoded_value, before_stmts, n1) ←
          encode_assign_aggregate ctx ty kind operands n
        return (before_stmts ++
          [VStmt.assign encoded_lhs encoded_value
            (is_place_encoded_as_local_var lhs)], n1)
    | .refR place => do
        let ref_var := VExpr.localVar (fresh_name n) VTy.refT
        let (alloc_stmts, n1) := encode_allocation ref_var ty true (n + 1)
        let field := encode_value_field ty
        let (encoded_value, _, _) ← encode_place ctx place
        return (alloc_stmts ++
          [VStmt.assign encoded_lhs ref_var
            (is_place_encoded_as_local_var lhs),
          VStmt.fieldAssign (VExpr.fieldAccess encoded_lhs field)
            encoded_value], n1)

/-- The `values.iter().enumerate()` loop of the `SwitchInt` arm: build one
`(guard, target)` pair per case value, reading `targets[i]` (an out-of-range
index is a Rust panic) and falling back to the spec block for an unmapped
target. -/
def switch_targets_loop (discr_var : VExpr) (is_bool : Bool)
    (cfg_blocks : CfgBlocks) (spec_cfg_block : Nat) (targets : List Nat) :
    List Int → Nat → Option (List (VExpr × Nat))
  | [], _ => some []
  | value :: rest, i => do
      let target ← targets.get? i
      let viper_guard :=
        if is_bool then
          if const_int_is_zero value then VExpr.notE discr_var else discr_var
        else VExpr.eqCmp discr_var (eval_const_int value)
      let target_cfg_block := (cfg_blocks.lookup target).getD spec_cfg_block
      let others ← switch_targets_loop discr_var is_bool cfg_blocks
        spec_cfg_block targets rest (i + 1)
      return (viper_guard, target_cfg_block) :: others

/-- The argument-encoding loop of the `Call` arm: encoded argument
expressions, accumulated "before" effects, and accumulated "after" effects. -/
def encode_call_args (ctx : MirCtx) :
    List MirOperand → Nat → Option (List VExpr × List VStmt × List VStmt × Nat)
  | [], n => some ([], [], [], n)
  | operand :: rest, n => do
      let (encoded, effects_before, effects_after, n1) ←
        encode_operand ctx operand n
      let (args, befores, afters, n2) ← encode_call_args ctx rest n1
      return (encoded :: args, effects_before ++ befores,
        effects_after ++ afters, n2)

/-- Modelled from the spec: `Encoder::encode_procedure_name` for a callee;
the exact mangling is external, only injectivity of names matters. -/
def encode_procedure_name (func_name : String) : String :=
  "m_" ++ func_name

/-- `encode_terminator`: each terminator kind lowered to its statements and
its successor, exactly following the source's match — `Goto`, `Drop`,
`FalseEdges`, `FalseUnwind`, `DropAndReplace`, `SwitchInt` and `Call` fall
back to the spec block for an unmapped target (`unwrap_or`), while `Assert`
unwraps the lookup and panics on an unmapped target. -/
def encode_terminator (ctx : MirCtx) (term : MirTerminator)
    (cfg_blocks : CfgBlocks) (spec_cfg_block abort_cfg_block
    return_cfg_block : Nat) (n : Nat) :
    Option ((List VStmt × Successor) × Nat) :=
  match term with
  | .ret => some (([], Successor.goto return_cfg_block), n)
  | .goto target =>
      let target_cfg_block := (cfg_blocks.lookup target).getD spec_cfg_block
      some (([], Successor.goto target_cfg_block), n)
  | .switchInt discr switch_ty values targets => do
      let is_bool := switch_ty.is_bool
      let discr_var :=
        if is_bool then VExpr.localVar (fresh_name n) VTy.boolT
        else VExpr.localVar (fresh_name n) VTy.intT
      let (discr_tmp_val, effect_stmts) ← eval_operand ctx discr
      let stmts := VStmt.localVarAssign discr_var discr_tmp_val :: effect_stmts
      let cfg_targets ← switch_targets_loop discr_var is_bool cfg_blocks
        spec_cfg_block targets values 0
      let default_target ← targets.get? values.length
      let cfg_default_target :=
        (cfg_blocks.lookup default_target).getD spec_cfg_block
      return ((stmts, Successor.gotoSwitch cfg_targets cfg_default_target),
        n + 1)
  | .unreachable => some (([], Successor.unreachable), n)
  | .abort => some (([], Successor.goto abort_cfg_block), n)
  | .drop target =>
      let target_cfg_block := (cfg_blocks.lookup target).getD spec_cfg_block
      some (([], Successor.goto target_cfg_block), n)
  | .falseEdges real_target =>
      let target_cfg_block :=
        (cfg_blocks.lookup real_target).getD spec_cfg_block
      some (([], Successor.goto target_cfg_block), n)
  | .falseUnwind real_target =>
      let target_cfg_block :=
        (cfg_blocks.lookup real_target).getD spec_cfg_block
      some (([], Successor.goto target_cfg_block), n)
  | .dropAndReplace location value target => do
      let (encoded_loc, _, _) ← encode_place ctx location
      let (encoded_value, effects_before, effects_after, n1) ←
        encode_operand ctx value n
      let assign_stmt :=
        if is_place_encoded_as_local_var location then
          VStmt.localVarAssign encoded_loc encoded_value
        else VStmt.fieldAssign encoded_loc encoded_value
      let target_cfg_block := (cfg_blocks.lookup target).getD spec_cfg_block
      return ((effects_before ++ [assign_stmt] ++ effects_after,
        Successor.goto target_cfg_block), n1)
  | .call func_proc_name args destination => do
      let (stmts, n1) ←
        if func_proc_name == "prusti_contracts::internal::__assertion" then
          none
        else if func_proc_name == "std::rt::begin_panic" then
          (some ([VStmt.comment "Rust panic",
            VStmt.assertStmt VExpr.falseLit], n) :
            Option (List VStmt × Nat))
        else do
          let (encoded_args, stmts_before, stmts_after, n1) ←
            encode_call_args ctx args n
          let encoded_target ← match destination with
            | some d => do
                let (e, _, _) ← encode_place ctx d.1
                pure [e]
            | none => pure []
          some (stmts_before ++
            [VStmt.methodCall (encode_procedure_name func_proc_name)
              encoded_args encoded_target] ++ stmts_after, n1)
      match destination with
      | some d =>
          let target_cfg_block :=
            (cfg_blocks.lookup d.2).getD spec_cfg_block
          return ((stmts, Successor.goto target_cfg_block), n1)
      | none => return ((stmts, Successor.unreachable), n1)
  | .assert cond expected target => do
      let cond_var := VExpr.localVar (fresh_name n) VTy.boolT
      let (cond_tmp_val, effect_stmts) ← eval_operand ctx cond
      let stmts := VStmt.localVarAssign cond_var cond_tmp_val :: effect_stmts
      let viper_guard := if expected then cond_var else VExpr.notE cond_var
      let target_cfg_block ← cfg_blocks.lookup target
      return ((stmts,
        Successor.gotoSwitch [(viper_guard, target_cfg_block)]
          abort_cfg_block), n + 1)
  | .resume => none

end Prusti

namespace Prusti

/-! ## Auxiliary lemmas on the permission algebra -/

theorem Place.ne_field (p : Place) : ∀ (f : String), p ≠ Place.field p f := by
  induction p with
  | loc s => intro f h; exact Place.noConfusion h
  | field b g ih =>
      intro f h
      injection h with h1 h2
      exact ih g h1

theorem Place.beq_field_eq_false (p : Place) (f : String) :
    (p == Place.field p f) = false := by
  simp [Place.ne_field p f]

theorem Place.has_prefix_self (p : Place) : Place.has_prefix p p = true := by
  cases p <;> simp [Place.has_prefix]

theorem PermMap.mem_of_get_eq_some {m : PermMap} {p : Place} {a : PermAmount}
    (h : m.get p = some a) : (p, a) ∈ m := by
  unfold PermMap.get at h
  cases hf : m.find? (fun e => e.1 == p) with
  | none => rw [hf] at h; simp at h
  | some e =>
      rw [hf] at h
      simp at h
      have hmem := List.mem_of_find?_eq_some hf
      have hp := List.find?_some hf
      simp at hp
      cases e with
      | mk q b => simp at hp h; subst hp; subst h; exact hmem

theorem PermMap.removeKey_eq_self {m : PermMap} {p : Place}
    (h : m.get p = none) : m.removeKey p = m := by
  unfold PermMap.get at h
  rw [Option.map_eq_none'] at h
  rw [List.find?_eq_none] at h
  unfold PermMap.removeKey
  apply List.filter_eq_self.mpr
  intro e he
  have := h e he
  simp at this ⊢
  exact this

theorem PermMap.mem_removeKey_imp {m : PermMap} {p : Place}
    {e : Place × PermAmount} (h : e ∈ m.removeKey p) : e ∈ m := by
  unfold PermMap.removeKey at h
  exact List.mem_of_mem_filter h

theorem PermMap.mem_insert_imp {m : PermMap} {p : Place} {a : PermAmount}
    {e : Place × PermAmount} (h : e ∈ m.insert p a) : e ∈ m ∨ e = (p, a) := by
  unfold PermMap.insert at h
  rcases List.mem_append.mp h with h1 | h2
  · exact Or.inl (PermMap.mem_removeKey_imp h1)
  · simp at h2; exact Or.inr h2

theorem PermMap.not_mem_keys_removeKey (m : PermMap) (p : Place) :
    p ∉ (m.removeKey p).keys := by
  intro h
  unfold PermMap.keys PermMap.removeKey at h
  rcases List.mem_map.mp h with ⟨e, he, hfst⟩
  have := List.of_mem_filter he
  simp at this
  exact this hfst

theorem PermMap.keys_removeKey_sublist (m : PermMap) (p : Place) :
    (m.removeKey p).keys.Sublist m.keys := by
  unfold PermMap.keys PermMap.removeKey
  exact List.Sublist.map _ (List.filter_sublist m)

theorem PermMap.insert_nodup_keys {m : PermMap} (p : Place) (a : PermAmount)
    (h : m.keys.Nodup) : (m.insert p a).keys.Nodup := by
  unfold PermMap.insert
  unfold PermMap.keys at h ⊢
  rw [List.map_append]
  simp only [List.map_cons, List.map_nil]
  apply List.Nodup.append
  · exact List.Nodup.sublist (PermMap.keys_removeKey_sublist m p) h
  · exact List.nodup_singleton _
  · intro q hq hq2
    simp at hq2
    rw [hq2] at hq
    exact PermMap.not_mem_keys_removeKey m _ hq

theorem toPermMap_aux_nodup_keys (l : List Perm) :
    ∀ (m : PermMap), m.keys.Nodup →
      (l.foldl (fun m p => m.insert p.get_place p.get_perm_amount) m).keys.Nodup := by
  induction l with
  | nil => intro m h; exact h
  | cons p l ih =>
      intro m h
      exact ih _ (PermMap.insert_nodup_keys _ _ h)

theorem toPermMap_nodup_keys (l : List Perm) : (toPermMap l).keys.Nodup :=
  toPermMap_aux_nodup_keys l [] List.nodup_nil

theorem toPermMap_aux_mem (l : List Perm) :
    ∀ (m : PermMap) (e : Place × PermAmount),
      e ∈ l.foldl (fun m p => m.insert p.get_place p.get_perm_amount) m →
      e ∈ m ∨ ∃ perm ∈ l, (perm.get_place, perm.get_perm_amount) = e := by
  induction l with
  | nil => intro m e h; exact Or.inl h
  | cons p l ih =>
      intro m e h
      rcases ih _ e h with h1 | ⟨perm, hperm, heq⟩
      · rcases PermMap.mem_insert_imp h1 with h2 | h3
        · exact Or.inl h2
        · exact Or.inr ⟨p, List.mem_cons_self _ _, h3.symm⟩
      · exact Or.inr ⟨perm, List.mem_cons_of_mem _ hperm, heq⟩

theorem toPermMap_mem {l : List Perm} {e : Place × PermAmount}
    (h : e ∈ toPermMap l) :
    ∃ perm ∈ l, (perm.get_place, perm.get_perm_amount) = e := by
  rcases toPermMap_aux_mem l [] e h with h1 | h2
  · simp at h1
  · exact h2

theorem ppd_nil (L : PermMap) : place_perm_difference L [] = some L := rfl

theorem PermMap.get_cons_self (p : Place) (a : PermAmount) (m : PermMap) :
    PermMap.get ((p, a) :: m) p = some a := by
  unfold PermMap.get
  simp [List.find?]

theorem PermMap.get_eq_none_of_not_mem_keys {m : PermMap} {p : Place}
    (h : p ∉ m.keys) : m.get p = none := by
  unfold PermMap.get
  rw [Option.map_eq_none']
  rw [List.find?_eq_none]
  intro e he
  simp
  intro hq
  exact h (List.mem_map.mpr ⟨e, he, hq⟩)

theorem PermMap.removeKey_cons_self (p : Place) (a : PermAmount) (m : PermMap)
    (h : p ∉ m.keys) : PermMap.removeKey ((p, a) :: m) p = m := by
  unfold PermMap.removeKey
  rw [List.filter_cons]
  rw [if_neg (by simp)]
  exact PermMap.removeKey_eq_self (PermMap.get_eq_none_of_not_mem_keys h)

/-- For a map with no duplicate keys and only `read`/`write` amounts,
subtracting the map from itself empties it. -/
theorem ppd_self (M : PermMap) (hnd : M.keys.Nodup)
    (hv : ∀ e ∈ M, e.2.is_valid_for_specs = true) :
    place_perm_difference M M = some [] := by
  induction M with
  | nil => rfl
  | cons e M ih =>
      obtain ⟨p, a⟩ := e
      unfold PermMap.keys at hnd
      rw [List.map_cons, List.nodup_cons] at hnd
      obtain ⟨hp, hnd'⟩ := hnd
      have ha : a.is_valid_for_specs = true := hv (p, a) (List.mem_cons_self _ _)
      unfold place_perm_difference
      rw [List.foldlM_cons]
      have hstep : place_perm_difference_step ((p, a) :: M) (p, a) = some M := by
        unfold place_perm_difference_step
        rw [PermMap.get_cons_self]
        cases a with
        | unset => exact absurd ha (by decide)
        | read => exact congrArg some (PermMap.removeKey_cons_self p _ M hp)
        | write => exact congrArg some (PermMap.removeKey_cons_self p _ M hp)
      rw [hstep]
      exact ih hnd' (fun e he => hv e (List.mem_cons_of_mem _ he))

/-- `place_perm_difference` fails only on an amount pair outside the
subtraction table at a shared place: when every shared place carries a
`subtractable` pair it always returns a result. -/
theorem ppd_total (R : PermMap) :
    ∀ (L : PermMap),
      (∀ e ∈ L, ∀ e2 ∈ R, e.1 = e2.1 → subtractable e.2 e2.2 = true) →
      (place_perm_difference L R).isSome = true := by
  induction R with
  | nil => intro L h; rfl
  | cons e2 R ih =>
      intro L h
      unfold place_perm_difference
      rw [List.foldlM_cons]
      cases hg : PermMap.get L e2.1 with
      | none =>
          have hstep : place_perm_difference_step L e2 = some L := by
            unfold place_perm_difference_step
            rw [hg]
          rw [hstep]
          exact ih L (fun e he e2' he2 hpl =>
            h e he e2' (List.mem_cons_of_mem _ he2) hpl)
      | some la =>
          have hmem : (e2.1, la) ∈ L := PermMap.mem_of_get_eq_some hg
          have hcomp := h (e2.1, la) hmem e2 (List.mem_cons_self _ _) rfl
          have hstep : place_perm_difference_step L e2
              = some (L.removeKey e2.1) := by
            unfold place_perm_difference_step
            rw [hg]
            cases la <;> cases he2 : e2.2 <;>
              first
                | rfl
                | (rw [he2] at hcomp; simp [subtractable] at hcomp)
          rw [hstep]
          exact ih _ (fun e he e2' he2 hpl =>
            h e (PermMap.mem_removeKey_imp he) e2' (List.mem_cons_of_mem _ he2) hpl)

theorem PermMap.get_append (m1 m2 : PermMap) (p : Place) :
    (m1 ++ m2).get p = ((m1.get p).or (m2.get p)) := by
  unfold PermMap.get
  rw [List.find?_append]
  cases List.find? (fun e => e.1 == p) m1 <;> simp

theorem PermMap.get_singleton_ne (q : Place) (a : PermAmount) (p : Place)
    (h : q ≠ p) : PermMap.get [(q, a)] p = none := by
  unfold PermMap.get
  rw [List.find?_cons_of_neg _ (by simp [h])]
  rfl

theorem foldl_insert_fresh (l : List Perm) :
    ∀ (m : PermMap),
      (l.map Perm.get_place).Nodup →
      (∀ p ∈ l, m.get p.get_place = none) →
      l.foldl (fun m p => m.insert p.get_place p.get_perm_amount) m =
        m ++ l.map (fun p => (p.get_place, p.get_perm_amount)) := by
  induction l with
  | nil => intro m _ _; simp
  | cons q l ih =>
      intro m hnd hfresh
      rw [List.map_cons, List.nodup_cons] at hnd
      obtain ⟨hq, hnd'⟩ := hnd
      rw [List.foldl_cons]
      have hins : m.insert q.get_place q.get_perm_amount
          = m ++ [(q.get_place, q.get_perm_amount)] := by
        unfold PermMap.insert
        rw [PermMap.removeKey_eq_self (hfresh q (List.mem_cons_self _ _))]
      have hfresh2 : ∀ p ∈ l,
          PermMap.get (m ++ [(q.get_place, q.get_perm_amount)]) p.get_place
            = none := by
        intro p hp
        rw [PermMap.get_append]
        rw [hfresh p (List.mem_cons_of_mem _ hp)]
        have hne : q.get_place ≠ p.get_place := by
          intro hc
          exact hq (hc ▸ List.mem_map.mpr ⟨p, hp, rfl⟩)
        rw [PermMap.get_singleton_ne _ _ _ hne]
        rfl
      rw [hins, ih _ hnd' hfresh2, List.map_cons, List.append_assoc]
      rfl

theorem toPermMap_eq_map (l : List Perm)
    (hnd : (l.map Perm.get_place).Nodup) :
    toPermMap l = l.map (fun p => (p.get_place, p.get_perm_amount)) := by
  unfold toPermMap
  rw [foldl_insert_fresh l [] hnd (fun p _ => rfl)]
  simp

theorem map_acc_reconstruct (l : List Perm) (h : ∀ p ∈ l, p.is_acc = true) :
    (l.map (fun p => (p.get_place, p.get_perm_amount))).map
      (fun e => Perm.Acc e.1 e.2) = l := by
  rw [List.map_map]
  have hcongr : ∀ p ∈ l,
      ((fun e => Perm.Acc e.1 e.2) ∘ fun p => (p.get_place, p.get_perm_amount)) p
        = id p := by
    intro p hp
    cases p with
    | Acc place a => rfl
    | Pred place a =>
        have hfalse := h _ hp
        simp [Perm.is_acc] at hfalse
  rw [List.map_congr_left hcongr, List.map_id]

theorem map_pred_reconstruct (l : List Perm) (h : ∀ p ∈ l, p.is_pred = true) :
    (l.map (fun p => (p.get_place, p.get_perm_amount))).map
      (fun e => Perm.Pred e.1 e.2) = l := by
  rw [List.map_map]
  have hcongr : ∀ p ∈ l,
      ((fun e => Perm.Pred e.1 e.2) ∘ fun p => (p.get_place, p.get_perm_amount)) p
        = id p := by
    intro p hp
    cases p with
    | Acc place a =>
        have hfalse := h _ hp
        simp [Perm.is_pred] at hfalse
    | Pred place a => rfl
  rw [List.map_congr_left hcongr, List.map_id]

theorem perm_difference_eq (left right : List Perm) (A B : PermMap)
    (hA : place_perm_difference (toPermMap (left.filter Perm.is_acc))
      (toPermMap (right.filter Perm.is_acc)) = some A)
    (hB : place_perm_difference (toPermMap (left.filter Perm.is_pred))
      (toPermMap (right.filter Perm.is_pred)) = some B) :
    perm_difference left right =
      some ((A.map fun e => Perm.Acc e.1 e.2) ++
        (B.map fun e => Perm.Pred e.1 e.2)) := by
  unfold perm_difference
  rw [hA, hB]
  rfl

theorem nodup_places_of_filter_acc (S : List Perm)
    (h : (S.map fun p => (p.is_acc, p.get_place)).Nodup) :
    ((S.filter Perm.is_acc).map Perm.get_place).Nodup := by
  have hsub : ((S.filter Perm.is_acc).map fun p => (p.is_acc, p.get_place)).Nodup :=
    List.Nodup.sublist (List.Sublist.map _ (List.filter_sublist S)) h
  have hmm : (S.filter Perm.is_acc).map Perm.get_place
      = ((S.filter Perm.is_acc).map fun p => (p.is_acc, p.get_place)).map
        Prod.snd := by
    rw [List.map_map]
    rfl
  rw [hmm]
  apply List.Nodup.map_on ?inj hsub
  case inj =>
    intro x hx y hy hxy
    rcases List.mem_map.mp hx with ⟨px, hpx, hex⟩
    rcases List.mem_map.mp hy with ⟨py, hpy, hey⟩
    have hax : px.is_acc = true := List.of_mem_filter hpx
    have hay : py.is_acc = true := List.of_mem_filter hpy
    rw [← hex, ← hey]
    rw [← hex, ← hey] at hxy
    simp at hxy ⊢
    exact ⟨by rw [hax, hay], hxy⟩

theorem nodup_places_of_filter_pred (S : List Perm)
    (h : (S.map fun p => (p.is_acc, p.get_place)).Nodup) :
    ((S.filter Perm.is_pred).map Perm.get_place).Nodup := by
  have hsub : ((S.filter Perm.is_pred).map fun p => (p.is_acc, p.get_place)).Nodup :=
    List.Nodup.sublist (List.Sublist.map _ (List.filter_sublist S)) h
  have hmm : (S.filter Perm.is_pred).map Perm.get_place
      = ((S.filter Perm.is_pred).map fun p => (p.is_acc, p.get_place)).map
        Prod.snd := by
    rw [List.map_map]
    rfl
  rw [hmm]
  apply List.Nodup.map_on ?inj hsub
  case inj =>
    intro x hx y hy hxy
    rcases List.mem_map.mp hx with ⟨px, hpx, hex⟩
    rcases List.mem_map.mp hy with ⟨py, hpy, hey⟩
    have hax : px.is_pred = true := List.of_mem_filter hpx
    have hay : py.is_pred = true := List.of_mem_filter hpy
    have hax2 : px.is_acc = false := by
      cases px <;> simp_all [Perm.is_acc, Perm.is_pred]
    have hay2 : py.is_acc = false := by
      cases py <;> simp_all [Perm.is_acc, Perm.is_pred]
    rw [← hex, ← hey]
    rw [← hex, ← hey] at hxy
    simp at hxy ⊢
    exact ⟨by rw [hax2, hay2], hxy⟩


/-! ## Claims C1 - C5: the permission algebra -/

/-- C1: the claim states that `perm_difference` is prefix-aware — subtracting
a permission on place `q` removes every permission whose place has `q` as a
prefix. The code, contrary to its own doc comment ("removing `x.f` also
removes any `x.f.g.h`"), removes only exact place matches: here `x.f` has
been subtracted, `x.f.g` has `x.f` as a proper prefix, yet `Acc(x.f.g, W)`
survives in the result. -/
theorem C1_perm_difference_removes_only_exact_matches :
    Place.has_proper_prefix
      (Place.field (Place.field (Place.loc "x") "f") "g")
      (Place.field (Place.loc "x") "f") = true ∧
    perm_difference
      [Perm.Acc (Place.field (Place.field (Place.loc "x") "f") "g")
        PermAmount.write]
      [Perm.Acc (Place.field (Place.loc "x") "f") PermAmount.write]
      = some [Perm.Acc (Place.field (Place.field (Place.loc "x") "f") "g")
          PermAmount.write] := by
  decide

/-- C2: for every place `p` and field `f`, `p.f` has `p` as a prefix,
`perm_difference({Acc(p,W)}, {Acc(p.f,W)})` leaves `Acc(p,W)` untouched
(subtracting a field permission never removes the parent), and
`perm_difference({Acc(p,W)}, {Acc(p,W)})` yields the empty set. -/
theorem C2_perm_difference_parent_and_exact (p : Place) (f : String) :
    Place.has_prefix (Place.field p f) p = true ∧
    perm_difference [Perm.Acc p PermAmount.write]
        [Perm.Acc (Place.field p f) PermAmount.write]
      = some [Perm.Acc p PermAmount.write] ∧
    perm_difference [Perm.Acc p PermAmount.write]
        [Perm.Acc p PermAmount.write]
      = some [] := by
  refine ⟨?_, ?_, ?_⟩
  · show (Place.field p f == p || Place.has_prefix p p) = true
    rw [Place.has_prefix_self]
    simp
  · have hget : PermMap.get [(p, PermAmount.write)] (Place.field p f) = none := by
      unfold PermMap.get
      rw [List.find?_cons_of_neg _ (by simp [Place.beq_field_eq_false])]
      rfl
    have hA : place_perm_difference
        (toPermMap ([Perm.Acc p PermAmount.write].filter Perm.is_acc))
        (toPermMap
          ([Perm.Acc (Place.field p f) PermAmount.write].filter Perm.is_acc))
        = some [(p, PermAmount.write)] := by
      show place_perm_difference [(p, PermAmount.write)]
        [(Place.field p f, PermAmount.write)] = some [(p, PermAmount.write)]
      unfold place_perm_difference
      rw [List.foldlM_cons]
      have hstep : place_perm_difference_step [(p, PermAmount.write)]
          (Place.field p f, PermAmount.write)
          = some [(p, PermAmount.write)] := by
        unfold place_perm_difference_step
        rw [hget]
      rw [hstep]
      rfl
    exact perm_difference_eq _ _ _ _ hA rfl
  · have hA : place_perm_difference
        (toPermMap ([Perm.Acc p PermAmount.write].filter Perm.is_acc))
        (toPermMap ([Perm.Acc p PermAmount.write].filter Perm.is_acc))
        = some [] := by
      apply ppd_self
      · show ([(p, PermAmount.write)].map Prod.fst).Nodup
        simp
      · intro e he
        simp only [show toPermMap ([Perm.Acc p PermAmount.write].filter Perm.is_acc)
          = [(p, PermAmount.write)] from rfl] at he
        simp at he
        rw [he]
        rfl
    exact perm_difference_eq _ _ _ _ hA rfl

/-- C3, counterexample: when the set already holds a permission on the place
(here `x` with amount `read`), `add` overwrites the entry and `remove`
deletes it outright, so the add/remove round trip loses the original entry
instead of restoring the prior state. -/
theorem C3_counterexample :
    ¬ (((PermSet.mk [(Place.loc "x", PermAmount.read)] []).add
          (Perm.Acc (Place.loc "x") PermAmount.write)).remove
          (Perm.Acc (Place.loc "x") PermAmount.write)
        = PermSet.mk [(Place.loc "x", PermAmount.read)] []) := by
  decide

/-- C3, amended: `PermSet.add` followed by `PermSet.remove` of the identical
`(place, amount)` pair restores the set, provided the set did not already
hold a permission of the same kind on that place. -/
theorem C3_add_remove_roundtrip (s : PermSet) (perm : Perm)
    (h : s.contains perm = false) :
    (s.add perm).remove perm = s := by
  cases perm with
  | Acc place a =>
      simp only [PermSet.contains] at h
      rw [show ∀ o : Option PermAmount, (o.isSome = false) = (o = none) from
        fun o => by cases o <;> simp] at h
      simp only [PermSet.add, PermSet.remove]
      have h1 : s.acc_perms.removeKey place = s.acc_perms :=
        PermMap.removeKey_eq_self h
      unfold PermMap.insert
      rw [h1]
      unfold PermMap.removeKey
      rw [List.filter_append]
      have h2 : List.filter (fun e => e.1 != place) [(place, a)] = [] := by simp
      rw [h2]
      show PermSet.mk (List.filter _ s.acc_perms ++ []) s.pred_perms = s
      rw [List.append_nil]
      show PermSet.mk (s.acc_perms.removeKey place) s.pred_perms = s
      rw [h1]
  | Pred place a =>
      simp only [PermSet.contains] at h
      rw [show ∀ o : Option PermAmount, (o.isSome = false) = (o = none) from
        fun o => by cases o <;> simp] at h
      simp only [PermSet.add, PermSet.remove]
      have h1 : s.pred_perms.removeKey place = s.pred_perms :=
        PermMap.removeKey_eq_self h
      unfold PermMap.insert
      rw [h1]
      unfold PermMap.removeKey
      rw [List.filter_append]
      have h2 : List.filter (fun e => e.1 != place) [(place, a)] = [] := by simp
      rw [h2]
      show PermSet.mk s.acc_perms (List.filter _ s.pred_perms ++ []) = s
      rw [List.append_nil]
      show PermSet.mk s.acc_perms (s.pred_perms.removeKey place) = s
      rw [h1]

/-- C3, witness: the amended round trip evaluated on the empty set. -/
theorem C3_add_remove_roundtrip_witness :
    PermSet.empty.contains (Perm.Acc (Place.loc "x") PermAmount.write) = false ∧
    (PermSet.empty.add (Perm.Acc (Place.loc "x") PermAmount.write)).remove
        (Perm.Acc (Place.loc "x") PermAmount.write) = PermSet.empty :=
  ⟨by decide, C3_add_remove_roundtrip PermSet.empty
    (Perm.Acc (Place.loc "x") PermAmount.write) (by decide)⟩

/-- C4, counterexample: with an `Unset` amount, `perm_difference(S, S)`
panics (`unreachable!`) instead of returning the empty set, and with two
amounts on the same place `perm_difference(S, ∅)` collapses them to the
last-inserted entry instead of returning `S` — the claim's "no precondition
on the permission amounts" fails. -/
theorem C4_counterexample :
    perm_difference [Perm.Acc (Place.loc "x") PermAmount.unset]
        [Perm.Acc (Place.loc "x") PermAmount.unset] = none ∧
    perm_difference
        [Perm.Acc (Place.loc "x") PermAmount.read,
         Perm.Acc (Place.loc "x") PermAmount.write] []
      = some [Perm.Acc (Place.loc "x") PermAmount.write] := by
  decide

/-- C4, amended: for every permission set `S` whose amounts are all valid for
specs (`read`/`write`, not `unset`) and which holds at most one amount per
(kind, place), `perm_difference(S, S)` returns the empty set and
`perm_difference(S, ∅)` returns a permutation of `S`. -/
theorem C4_self_difference_and_right_identity (S : List Perm)
    (hvalid : ∀ perm ∈ S, perm.get_perm_amount.is_valid_for_specs = true)
    (hnodup : (S.map fun p => (p.is_acc, p.get_place)).Nodup) :
    perm_difference S S = some [] ∧
    ∃ r, perm_difference S [] = some r ∧ List.Perm r S := by
  have hv_acc : ∀ e ∈ toPermMap (S.filter Perm.is_acc),
      e.2.is_valid_for_specs = true := by
    intro e he
    rcases toPermMap_mem he with ⟨perm, hmem, heq⟩
    have h2 := hvalid perm (List.mem_of_mem_filter hmem)
    rw [← congrArg Prod.snd heq]
    exact h2
  have hv_pred : ∀ e ∈ toPermMap (S.filter Perm.is_pred),
      e.2.is_valid_for_specs = true := by
    intro e he
    rcases toPermMap_mem he with ⟨perm, hmem, heq⟩
    have h2 := hvalid perm (List.mem_of_mem_filter hmem)
    rw [← congrArg Prod.snd heq]
    exact h2
  constructor
  · have hA := ppd_self (toPermMap (S.filter Perm.is_acc))
      (toPermMap_nodup_keys _) hv_acc
    have hB := ppd_self (toPermMap (S.filter Perm.is_pred))
      (toPermMap_nodup_keys _) hv_pred
    exact perm_difference_eq S S [] [] hA hB
  · have hacc_nd := nodup_places_of_filter_acc S hnodup
    have hpred_nd := nodup_places_of_filter_pred S hnodup
    refine ⟨S.filter Perm.is_acc ++ S.filter Perm.is_pred, ?_, ?_⟩
    · have hA : place_perm_difference (toPermMap (S.filter Perm.is_acc))
          (toPermMap (([] : List Perm).filter Perm.is_acc))
          = some (toPermMap (S.filter Perm.is_acc)) := ppd_nil _
      have hB : place_perm_difference (toPermMap (S.filter Perm.is_pred))
          (toPermMap (([] : List Perm).filter Perm.is_pred))
          = some (toPermMap (S.filter Perm.is_pred)) := ppd_nil _
      rw [perm_difference_eq S [] _ _ hA hB]
      rw [toPermMap_eq_map _ hacc_nd, toPermMap_eq_map _ hpred_nd]
      rw [map_acc_reconstruct _ (fun p hp => List.of_mem_filter hp)]
      rw [map_pred_reconstruct _ (fun p hp => List.of_mem_filter hp)]
    · have hfp := List.filter_append_perm Perm.is_acc S
      have hcongr : S.filter (fun a => !Perm.is_acc a) = S.filter Perm.is_pred := by
        apply List.filter_congr
        intro p hp
        cases p <;> rfl
      rw [hcongr] at hfp
      exact hfp

/-- C4, witness: the amended property evaluated on a one-element set. -/
theorem C4_self_difference_and_right_identity_witness :
    ((∀ perm ∈ [Perm.Acc (Place.loc "x") PermAmount.write],
        perm.get_perm_amount.is_valid_for_specs = true) ∧
      (([Perm.Acc (Place.loc "x") PermAmount.write].map
        fun p => (p.is_acc, p.get_place)).Nodup)) ∧
    (perm_difference [Perm.Acc (Place.loc "x") PermAmount.write]
        [Perm.Acc (Place.loc "x") PermAmount.write] = some [] ∧
      ∃ r, perm_difference [Perm.Acc (Place.loc "x") PermAmount.write] []
          = some r ∧
        List.Perm r [Perm.Acc (Place.loc "x") PermAmount.write]) :=
  ⟨⟨by decide, by decide⟩,
    C4_self_difference_and_right_identity
      [Perm.Acc (Place.loc "x") PermAmount.write] (by decide) (by decide)⟩

/-- C5, counterexample: subtracting a `read` permission from a held `write`
permission on the same place hits the `unreachable!` panic — the claim that
`perm_difference` never fails for every pair of permission sets is false. -/
theorem C5_counterexample :
    perm_difference [Perm.Acc (Place.loc "x") PermAmount.write]
      [Perm.Acc (Place.loc "x") PermAmount.read] = none := by
  decide

/-- C5, amended: `perm_difference(left, right)` returns a result — never
panicking, with entries present only in `right` silently ignored, including
when `right` claims a larger amount (`read` held, `write` subtracted) — as
long as every place shared by both sides (same kind) carries an amount pair
of the subtraction table `read−read`, `read−write`, `write−write`; the
untabulated write−read and unset combinations are the only panics. -/
theorem C5_perm_difference_total_on_subtractable (left right : List Perm)
    (h : ∀ pl ∈ left, ∀ pr ∈ right, pl.is_acc = pr.is_acc →
      pl.get_place = pr.get_place →
      subtractable pl.get_perm_amount pr.get_perm_amount = true) :
    (perm_difference left right).isSome = true := by
  have hside : ∀ (b : Perm → Bool),
      (∀ p : Perm, b p = true → ∀ q : Perm, b q = true → p.is_acc = q.is_acc) →
      (place_perm_difference (toPermMap (left.filter b))
        (toPermMap (right.filter b))).isSome = true := by
    intro b hb
    apply ppd_total
    intro e he e2 he2 hpl
    rcases toPermMap_mem he with ⟨pl, hpl_mem, heql⟩
    rcases toPermMap_mem he2 with ⟨pr, hpr_mem, heqr⟩
    have hkind : pl.is_acc = pr.is_acc :=
      hb pl (List.of_mem_filter hpl_mem) pr (List.of_mem_filter hpr_mem)
    have hplace : pl.get_place = pr.get_place := by
      have h1 : pl.get_place = e.1 := congrArg Prod.fst heql
      have h2 : pr.get_place = e2.1 := congrArg Prod.fst heqr
      rw [h1, h2, hpl]
    have hsub := h pl (List.mem_of_mem_filter hpl_mem)
      pr (List.mem_of_mem_filter hpr_mem) hkind hplace
    rw [← congrArg Prod.snd heql, ← congrArg Prod.snd heqr]
    exact hsub
  have hacc := hside Perm.is_acc (fun p hp q hq => by rw [hp, hq])
  have hpred := hside Perm.is_pred (fun p hp q hq => by
    cases p <;> cases q <;> simp_all [Perm.is_acc, Perm.is_pred])
  rcases Option.isSome_iff_exists.mp hacc with ⟨A, hA⟩
  rcases Option.isSome_iff_exists.mp hpred with ⟨B, hB⟩
  rw [perm_difference_eq left right A B hA hB]
  rfl

/-- C5, witness: the amended totality evaluated where `right` both claims a
larger amount at the shared place `x` (read − write, tolerated) and holds a
place `y` absent from `left` (silently ignored). -/
theorem C5_perm_difference_total_on_subtractable_witness :
    (∀ pl ∈ [Perm.Acc (Place.loc "x") PermAmount.read],
      ∀ pr ∈ [Perm.Acc (Place.loc "x") PermAmount.write,
              Perm.Acc (Place.loc "y") PermAmount.write],
        pl.is_acc = pr.is_acc → pl.get_place = pr.get_place →
        subtractable pl.get_perm_amount pr.get_perm_amount = true) ∧
    (perm_difference [Perm.Acc (Place.loc "x") PermAmount.read]
      [Perm.Acc (Place.loc "x") PermAmount.write,
       Perm.Acc (Place.loc "y") PermAmount.write]).isSome = true :=
  ⟨by decide, C5_perm_difference_total_on_subtractable _ _ (by decide)⟩


/-! ## Claims C6 - C10: the procedure encoder -/

/-- C6, counterexample: a boolean `SwitchInt` with two targets carries one
case value (`values = [0]`, MIR's `targets.len() == values.len() + 1`), so
the encoder emits exactly ONE guarded pair — `(¬tmp, target₁)` — plus the
second target as a separate structural default, not two guarded pairs and no
default as claimed. -/
theorem C6_counterexample :
    encode_terminator ⟨[RTy.bool]⟩
        (MirTerminator.switchInt
          (MirOperand.const (MirConst.bool true) RTy.bool) RTy.bool [0] [1, 2])
        [(1, 10), (2, 20)] 90 91 92 0
      = some (([VStmt.localVarAssign (VExpr.localVar (fresh_name 0) VTy.boolT)
            VExpr.trueLit],
          Successor.gotoSwitch
            [(VExpr.notE (VExpr.localVar (fresh_name 0) VTy.boolT), 10)] 20),
          1) ∧
    ([(VExpr.notE (VExpr.localVar (fresh_name 0) VTy.boolT), 10)] :
      List (VExpr × Nat)).length ≠ 2 :=
  ⟨rfl, by decide⟩

/-- C6, amended: encoding a `SwitchInt` whose switched type is boolean and
which has two targets (hence a single case value) produces a `GotoSwitch`
successor with exactly one guarded pair — the guard is the negation of the
fresh boolean temporary when the case value is zero and the temporary itself
otherwise — together with the second target as a separate default; the
default arm is taken exactly when the single guard fails, so the two arms are
semantically guarded by mutual negations, but structurally there is one
explicit guard plus a default. -/
theorem C6_boolean_switch_single_guard_with_default (ctx : MirCtx)
    (cfg_blocks : CfgBlocks) (discr : MirOperand) (v : Int)
    (t1 t2 spec_blk abort_blk return_blk n : Nat)
    (e : VExpr) (effs : List VStmt)
    (heval : eval_operand ctx discr = some (e, effs)) :
    encode_terminator ctx
        (MirTerminator.switchInt discr RTy.bool [v] [t1, t2])
        cfg_blocks spec_blk abort_blk return_blk n
      = some ((VStmt.localVarAssign (VExpr.localVar (fresh_name n) VTy.boolT) e
          :: effs,
        Successor.gotoSwitch
          [((if const_int_is_zero v
              then VExpr.notE (VExpr.localVar (fresh_name n) VTy.boolT)
              else VExpr.localVar (fresh_name n) VTy.boolT),
            (cfg_blocks.lookup t1).getD spec_blk)]
          ((cfg_blocks.lookup t2).getD spec_blk)), n + 1) := by
  simp only [encode_terminator]
  rw [heval]
  rfl

/-- C6, witness: the amended switch encoding evaluated on a concrete boolean
two-target switch. -/
theorem C6_boolean_switch_single_guard_with_default_witness :
    eval_operand ⟨[RTy.bool]⟩ (MirOperand.const (MirConst.bool true) RTy.bool)
      = some (VExpr.trueLit, []) ∧
    encode_terminator ⟨[RTy.bool]⟩
        (MirTerminator.switchInt
          (MirOperand.const (MirConst.bool true) RTy.bool) RTy.bool [0] [1, 2])
        [(1, 10), (2, 20)] 90 91 92 0
      = some ((VStmt.localVarAssign (VExpr.localVar (fresh_name 0) VTy.boolT)
          VExpr.trueLit :: [],
        Successor.gotoSwitch
          [((if const_int_is_zero 0
              then VExpr.notE (VExpr.localVar (fresh_name 0) VTy.boolT)
              else VExpr.localVar (fresh_name 0) VTy.boolT),
            (CfgBlocks.lookup [(1, 10), (2, 20)] 1).getD 90)]
          ((CfgBlocks.lookup [(1, 10), (2, 20)] 2).getD 90)), 0 + 1) :=
  ⟨rfl, C6_boolean_switch_single_guard_with_default ⟨[RTy.bool]⟩
    [(1, 10), (2, 20)] (MirOperand.const (MirConst.bool true) RTy.bool)
    0 1 2 90 91 92 0 VExpr.trueLit [] rfl⟩

/-- C7, counterexample: a checked addition whose left operand is a `Move`
emits, after the two `tuple_0`/`tuple_1` field assignments, a third
statement — the move-invalidation null assignment, a write — so the encoding
is not "exactly two field-assignment statements and no other writes". -/
theorem C7_counterexample :
    encode_statement ⟨[RTy.tuple [RTy.uint, RTy.bool], RTy.uint]⟩
        (MirStatement.assign (MirPlace.loc 0)
          (MirRvalue.checkedBinaryOp MirBinOp.add
            (MirOperand.move (MirPlace.loc 1))
            (MirOperand.const (MirConst.int 5) RTy.uint))) 0
      = some ([VStmt.fieldAssign
            (VExpr.fieldAccess
              (VExpr.fieldAccess (encode_local 0) (VField.refF "tuple_0"))
              (VField.valueF RTy.uint))
            (VExpr.add
              (VExpr.fieldAccess (encode_local 1) (VField.valueF RTy.uint))
              (VExpr.intLit 5)),
          VStmt.fieldAssign
            (VExpr.fieldAccess
              (VExpr.fieldAccess (encode_local 0) (VField.refF "tuple_1"))
              (VField.valueF RTy.bool))
            VExpr.trueLit,
          VStmt.assign (encode_local 1) VExpr.nullLit true], 0) ∧
    ([VStmt.fieldAssign
        (VExpr.fieldAccess
          (VExpr.fieldAccess (encode_local 0) (VField.refF "tuple_0"))
          (VField.valueF RTy.uint))
        (VExpr.add
          (VExpr.fieldAccess (encode_local 1) (VField.valueF RTy.uint))
          (VExpr.intLit 5)),
      VStmt.fieldAssign
        (VExpr.fieldAccess
          (VExpr.fieldAccess (encode_local 0) (VField.refF "tuple_1"))
          (VField.valueF RTy.bool))
        VExpr.trueLit,
      VStmt.assign (encode_local 1) VExpr.nullLit true] :
        List VStmt).length ≠ 2 :=
  ⟨rfl, by decide⟩

/-- C7, amended: encoding a checked binary arithmetic assignment into a
2-tuple-shaped destination produces the two field assignments — first into
the value field of `tuple_0` (the value), then into the value field of
`tuple_1` (the overflow flag), in that order — followed only by the
move-invalidation null assignments of the operands (left's, then right's);
an operand that is not a `Move` contributes no statements, so with no `Move`
operand the two field assignments are the only statements. -/
theorem C7_checked_binop_field_assigns_then_move_effects (ctx : MirCtx)
    (lhs : MirPlace) (op : MirBinOp) (left right : MirOperand) (t1 t2 : RTy)
    (lhsE : VExpr) (vi : Option Nat)
    (hlhs : encode_place ctx lhs = some (lhsE, RTy.tuple [t1, t2], vi))
    (el : VExpr) (effL : List VStmt)
    (hl : eval_operand ctx left = some (el, effL))
    (er : VExpr) (effR : List VStmt)
    (hr : eval_operand ctx right = some (er, effR))
    (v : VExpr) (hop : encode_bin_op_value op el er = some v) (n : Nat) :
    encode_statement ctx
        (MirStatement.assign lhs (MirRvalue.checkedBinaryOp op left right)) n
      = some ([VStmt.fieldAssign
            (VExpr.fieldAccess (VExpr.fieldAccess lhsE (VField.refF "tuple_0"))
              (VField.valueF t1)) v,
          VStmt.fieldAssign
            (VExpr.fieldAccess (VExpr.fieldAccess lhsE (VField.refF "tuple_1"))
              (VField.valueF t2)) (encode_bin_op_check op el er)]
        ++ effL ++ effR, n) ∧
    (left.is_move = false → effL = []) ∧
    (right.is_move = false → effR = []) := by
  refine ⟨?_, ?_, ?_⟩
  · simp [encode_statement, hlhs, hl, hr, hop, encode_ref_field,
      encode_value_field]
  · intro hm
    cases left with
    | move p => simp [MirOperand.is_move] at hm
    | copy p =>
        cases hev : eval_place ctx p with
        | none => simp [eval_operand, hev] at hl
        | some a =>
            simp [eval_operand, hev] at hl
            exact hl.2
    | const c ty =>
        simp [eval_operand] at hl
        exact hl.2
  · intro hm
    cases right with
    | move p => simp [MirOperand.is_move] at hm
    | copy p =>
        cases hev : eval_place ctx p with
        | none => simp [eval_operand, hev] at hr
        | some a =>
            simp [eval_operand, hev] at hr
            exact hr.2
    | const c ty =>
        simp [eval_operand] at hr
        exact hr.2

/-- C7, witness: the amended checked-binary-op encoding evaluated on a
concrete checked addition of two constants (no `Move` operand, hence exactly
the two field assignments). -/
theorem C7_checked_binop_field_assigns_then_move_effects_witness :
    encode_place ⟨[RTy.tuple [RTy.uint, RTy.bool], RTy.uint]⟩ (MirPlace.loc 0)
      = some (encode_local 0, RTy.tuple [RTy.uint, RTy.bool], none) ∧
    encode_statement ⟨[RTy.tuple [RTy.uint, RTy.bool], RTy.uint]⟩
        (MirStatement.assign (MirPlace.loc 0)
          (MirRvalue.checkedBinaryOp MirBinOp.add
            (MirOperand.const (MirConst.int 1) RTy.uint)
            (MirOperand.const (MirConst.int 2) RTy.uint))) 0
      = some ([VStmt.fieldAssign
            (VExpr.fieldAccess
              (VExpr.fieldAccess (encode_local 0) (VField.refF "tuple_0"))
              (VField.valueF RTy.uint))
            (VExpr.add (VExpr.intLit 1) (VExpr.intLit 2)),
          VStmt.fieldAssign
            (VExpr.fieldAccess
              (VExpr.fieldAccess (encode_local 0) (VField.refF "tuple_1"))
              (VField.valueF RTy.bool))
            (encode_bin_op_check MirBinOp.add (VExpr.intLit 1) (VExpr.intLit 2))]
        ++ [] ++ [], 0) :=
  ⟨rfl, (C7_checked_binop_field_assigns_then_move_effects
    ⟨[RTy.tuple [RTy.uint, RTy.bool], RTy.uint]⟩ (MirPlace.loc 0) MirBinOp.add
    (MirOperand.const (MirConst.int 1) RTy.uint)
    (MirOperand.const (MirConst.int 2) RTy.uint) RTy.uint RTy.bool
    (encode_local 0) none rfl (VExpr.intLit 1) [] rfl (VExpr.intLit 2) [] rfl
    (VExpr.add (VExpr.intLit 1) (VExpr.intLit 2)) rfl 0).1⟩

/-- C8: for every place whose encoded base type is a boolean, integer,
unsigned integer, reference or raw pointer, encoding a field projection on
that place hits `panic!("Type {:?} has no fields")` — a fatal internal
error, modelled as `none`. -/
theorem C8_field_projection_on_no_field_type_fatal (ctx : MirCtx)
    (base : MirPlace) (idx : Nat) (e : VExpr) (bty : RTy) (vi : Option Nat)
    (hbase : encode_place ctx base = some (e, bty, vi))
    (hty : bty.has_no_fields = true) :
    encode_projection ctx base (MirProjElem.fieldP idx) = none := by
  unfold encode_projection
  rw [hbase]
  show encode_projection_result (e, bty, vi) (MirProjElem.fieldP idx) = none
  unfold encode_projection_result
  cases bty <;> simp_all [RTy.has_no_fields]

/-- C8, witness: projecting a field on a boolean-typed local is fatal. -/
theorem C8_field_projection_on_no_field_type_fatal_witness :
    encode_place ⟨[RTy.bool]⟩ (MirPlace.loc 0)
      = some (encode_local 0, RTy.bool, none) ∧
    RTy.bool.has_no_fields = true ∧
    encode_projection ⟨[RTy.bool]⟩ (MirPlace.loc 0) (MirProjElem.fieldP 0)
      = none :=
  ⟨rfl, rfl, C8_field_projection_on_no_field_type_fatal ⟨[RTy.bool]⟩
    (MirPlace.loc 0) 0 (encode_local 0) RTy.bool none rfl rfl⟩

/-- C9: for every checked binary operation, regardless of operator and
operands, the expression written into the overflow-flag field `tuple_1` is
the boolean literal `true` — `encode_bin_op_check` returns `true_lit`
unconditionally, so the encoder never computes an actual overflow
condition. -/
theorem C9_overflow_check_literal_true (ctx : MirCtx) (lhs : MirPlace)
    (op : MirBinOp) (left right : MirOperand) (t1 t2 : RTy) (lhsE : VExpr)
    (vi : Option Nat)
    (hlhs : encode_place ctx lhs = some (lhsE, RTy.tuple [t1, t2], vi))
    (el : VExpr) (effL : List VStmt)
    (hl : eval_operand ctx left = some (el, effL))
    (er : VExpr) (effR : List VStmt)
    (hr : eval_operand ctx right = some (er, effR))
    (v : VExpr) (hop : encode_bin_op_value op el er = some v) (n : Nat) :
    encode_bin_op_check op el er = VExpr.trueLit ∧
    (encode_statement ctx
        (MirStatement.assign lhs (MirRvalue.checkedBinaryOp op left right)) n).map
        (fun r => r.1.get? 1)
      = some (some (VStmt.fieldAssign
          (VExpr.fieldAccess (VExpr.fieldAccess lhsE (VField.refF "tuple_1"))
            (VField.valueF t2)) VExpr.trueLit)) := by
  refine ⟨rfl, ?_⟩
  simp [encode_statement, hlhs, hl, hr, hop, encode_ref_field,
    encode_value_field, encode_bin_op_check]

/-- C9, witness: the overflow flag written for a concrete checked subtraction
is the literal `true`. -/
theorem C9_overflow_check_literal_true_witness :
    encode_bin_op_check MirBinOp.sub (VExpr.intLit 1) (VExpr.intLit 2)
      = VExpr.trueLit ∧
    (encode_statement ⟨[RTy.tuple [RTy.uint, RTy.bool], RTy.uint]⟩
        (MirStatement.assign (MirPlace.loc 0)
          (MirRvalue.checkedBinaryOp MirBinOp.sub
            (MirOperand.const (MirConst.int 1) RTy.uint)
            (MirOperand.const (MirConst.int 2) RTy.uint))) 0).map
        (fun r => r.1.get? 1)
      = some (some (VStmt.fieldAssign
          (VExpr.fieldAccess
            (VExpr.fieldAccess (encode_local 0) (VField.refF "tuple_1"))
            (VField.valueF RTy.bool)) VExpr.trueLit)) :=
  C9_overflow_check_literal_true
    ⟨[RTy.tuple [RTy.uint, RTy.bool], RTy.uint]⟩ (MirPlace.loc 0) MirBinOp.sub
    (MirOperand.const (MirConst.int 1) RTy.uint)
    (MirOperand.const (MirConst.int 2) RTy.uint) RTy.uint RTy.bool
    (encode_local 0) none rfl (VExpr.intLit 1) [] rfl (VExpr.intLit 2) [] rfl
    (VExpr.sub (VExpr.intLit 1) (VExpr.intLit 2)) rfl 0

/-- C10: an `Assert` terminator whose target is not in the block-index map is
fatal (`unwrap` on the lookup, modelled as `none`), while `Goto`, `Drop`,
`FalseEdges`, `FalseUnwind`, `DropAndReplace` and `SwitchInt` fall back to
the spec block (`unwrap_or(&spec_cfg_block)`) for every unmapped target. -/
theorem C10_assert_fatal_others_fall_back_to_spec (ctx : MirCtx)
    (cfg_blocks : CfgBlocks) (t : Nat) (hmiss : cfg_blocks.lookup t = none)
    (spec_blk abort_blk return_blk n : Nat)
    (cond : MirOperand) (expected : Bool)
    (location : MirPlace) (value : MirOperand)
    (locE : VExpr) (lty : RTy) (lvi : Option Nat)
    (hloc : encode_place ctx location = some (locE, lty, lvi))
    (valE : VExpr) (before after : List VStmt) (n1 : Nat)
    (hval : encode_operand ctx value n = some (valE, before, after, n1))
    (discr : MirOperand) (v : Int) (e : VExpr) (effs : List VStmt)
    (heval : eval_operand ctx discr = some (e, effs)) :
    encode_terminator ctx (MirTerminator.assert cond expected t) cfg_blocks
        spec_blk abort_blk return_blk n = none ∧
    encode_terminator ctx (MirTerminator.goto t) cfg_blocks
        spec_blk abort_blk return_blk n
      = some (([], Successor.goto spec_blk), n) ∧
    encode_terminator ctx (MirTerminator.drop t) cfg_blocks
        spec_blk abort_blk return_blk n
      = some (([], Successor.goto spec_blk), n) ∧
    encode_terminator ctx (MirTerminator.falseEdges t) cfg_blocks
        spec_blk abort_blk return_blk n
      = some (([], Successor.goto spec_blk), n) ∧
    encode_terminator ctx (MirTerminator.falseUnwind t) cfg_blocks
        spec_blk abort_blk return_blk n
      = some (([], Successor.goto spec_blk), n) ∧
    encode_terminator ctx (MirTerminator.dropAndReplace location value t)
        cfg_blocks spec_blk abort_blk return_blk n
      = some ((before ++
          [if is_place_encoded_as_local_var location
            then VStmt.localVarAssign locE valE
            else VStmt.fieldAssign locE valE] ++ after,
          Successor.goto spec_blk), n1) ∧
    encode_terminator ctx
        (MirTerminator.switchInt discr RTy.int [v] [t, t]) cfg_blocks
        spec_blk abort_blk return_blk n
      = some ((VStmt.localVarAssign (VExpr.localVar (fresh_name n) VTy.intT) e
          :: effs,
        Successor.gotoSwitch
          [(VExpr.eqCmp (VExpr.localVar (fresh_name n) VTy.intT)
            (eval_const_int v), spec_blk)] spec_blk), n + 1) := by
  refine ⟨?_, ?_, ?_, ?_, ?_, ?_, ?_⟩
  · simp only [encode_terminator]
    cases hc : eval_operand ctx cond with
    | none => rfl
    | some pair =>
        obtain ⟨cv, ce⟩ := pair
        simp [hmiss]
  · simp only [encode_terminator, hmiss]
    rfl
  · simp only [encode_terminator, hmiss]
    rfl
  · simp only [encode_terminator, hmiss]
    rfl
  · simp only [encode_terminator, hmiss]
    rfl
  · simp [encode_terminator, hloc, hval, hmiss]
  · simp [encode_terminator, heval, switch_targets_loop, hmiss, eval_const_int,
      const_int_is_zero, RTy.is_bool]

/-- C10, witness: with target `5` absent from the block map `[(1, 10)]`, the
`Assert` encoding is fatal while the `Goto` encoding falls back to the spec
block `90`. -/
theorem C10_assert_fatal_others_fall_back_to_spec_witness :
    CfgBlocks.lookup [(1, 10)] 5 = none ∧
    encode_terminator ⟨[RTy.bool]⟩
        (MirTerminator.assert (MirOperand.const (MirConst.bool true) RTy.bool)
          true 5) [(1, 10)] 90 91 92 0 = none ∧
    encode_terminator ⟨[RTy.bool]⟩ (MirTerminator.goto 5)
        [(1, 10)] 90 91 92 0 = some (([], Successor.goto 90), 0) := by
  refine ⟨rfl, ?_, ?_⟩
  · exact (C10_assert_fatal_others_fall_back_to_spec ⟨[RTy.bool]⟩ [(1, 10)] 5
      rfl 90 91 92 0 (MirOperand.const (MirConst.bool true) RTy.bool) true
      (MirPlace.loc 0) (MirOperand.const (MirConst.int 7) RTy.int)
      (encode_local 0) RTy.bool none rfl
      (VExpr.localVar (fresh_name 0) VTy.refT)
      [VStmt.newStmt (VExpr.localVar (fresh_name 0) VTy.refT)
        [VField.refF "val_int"],
       VStmt.fieldAssign
        (VExpr.fieldAccess (VExpr.localVar (fresh_name 0) VTy.refT)
          (VField.valueF RTy.int)) (VExpr.intLit 7)] [] 1 rfl
      (MirOperand.const (MirConst.int 3) RTy.int) 3 (VExpr.intLit 3) []
      rfl).1
  · exact (C10_assert_fatal_others_fall_back_to_spec ⟨[RTy.bool]⟩ [(1, 10)] 5
      rfl 90 91 92 0 (MirOperand.const (MirConst.bool true) RTy.bool) true
      (MirPlace.loc 0) (MirOperand.const (MirConst.int 7) RTy.int)
      (encode_local 0) RTy.bool none rfl
      (VExpr.localVar (fresh_name 0) VTy.refT)
      [VStmt.newStmt (VExpr.localVar (fresh_name 0) VTy.refT)
        [VField.refF "val_int"],
       VStmt.fieldAssign
        (VExpr.fieldAccess (VExpr.localVar (fresh_name 0) VTy.refT)
          (VField.valueF RTy.int)) (VExpr.intLit 7)] [] 1 rfl
      (MirOperand.const (MirConst.int 3) RTy.int) 3 (VExpr.intLit 3) []
      rfl).2.1

end Prusti
